import Mathlib

/-!
Shallow embedding of the caching + retry + statistics-aggregation engine of
the github-api-backend repository (src/routes/github.ts), together with
theorems settling the specification claims about it.

Conventions of the embedding:
* JavaScript numbers used as timestamps / day counts become `Int`;
  byte counts and HTTP statuses become `Nat`.
* `Array.prototype.sort` (stable since ES2019) is modelled by a stable
  insertion sort parameterised by the numeric sort key of the comparator.
* The JS object `cache` (string-keyed, insertion ordered, unique keys) is
  modelled as an association list in insertion order.
* `JSON.stringify(cache).length` (the serialized-size estimate) is not
  re-computed inside the model; it is passed to `cleanupCache` as an
  explicit argument, since the cleanup logic only compares it to a limit.
-/

namespace GH

/-- Character-list version of a "starts with" test; `leadsWith pat s` is
true when `pat` is an initial segment of `s`.  Used to model the JS
`String.startsWith` calls of the handlers. -/
def leadsWith : List Char → List Char → Bool
  | [], _ => true
  | _ :: _, [] => false
  | a :: as, b :: bs => a == b && leadsWith as bs

/-- Model of JS `String.startsWith`: `strStartsWith s pat` is true when
`pat` is an initial segment of `s`. -/
def strStartsWith (s pat : String) : Bool :=
  leadsWith pat.data s.data

/-- Character-list version of a substring test: `hasSub pat s` is true when
`pat` occurs contiguously inside `s`. -/
def hasSub (pat : List Char) : List Char → Bool
  | [] => leadsWith pat []
  | c :: rest => leadsWith pat (c :: rest) || hasSub pat rest

/-- Model of JS `String.includes`: `strIncludes s pat` is true when `pat`
occurs as a contiguous substring of `s`. -/
def strIncludes (s pat : String) : Bool :=
  hasSub pat.data s.data

/-- Stable insertion (descending by the key `k`) of one element: the new
element goes after every already-placed element whose key is at least as
large, mirroring a stable JS sort with comparator `(a, b) => k b - k a`. -/
def insertByDesc (k : α → Int) (x : α) : List α → List α
  | [] => [x]
  | y :: ys => if k x ≤ k y then y :: insertByDesc k x ys else x :: y :: ys

/-- Stable sort, descending by the key `k`: models
`arr.sort((a, b) => k(b) - k(a))` on a JS array (stable). -/
def sortByDesc (k : α → Int) (l : List α) : List α :=
  l.foldl (fun acc x => insertByDesc k x acc) []

/-- Stable insertion (ascending by the key `k`) of one element. -/
def insertByAsc (k : α → Int) (x : α) : List α → List α
  | [] => [x]
  | y :: ys => if k y ≤ k x then y :: insertByAsc k x ys else x :: y :: ys

/-- Stable sort, ascending by the key `k`: models
`arr.sort((a, b) => k(a) - k(b))` on a JS array (stable). -/
def sortByAsc (k : α → Int) (l : List α) : List α :=
  l.foldl (fun acc x => insertByAsc k x acc) []

/-!  ## fetchWithRetry  -/

/-- One upstream attempt outcome: either an HTTP response with a status
code, or a thrown transport error carrying its message. -/
inductive Outcome where
  | resp (status : Nat)
  | err (msg : String)
deriving DecidableEq

/-- Result of `fetchWithRetry`: the returned response (with the index of
the attempt that produced it), or the transport error it re-throws. -/
inductive FetchResult where
  | success (status : Nat) (attempt : Nat)
  | thrown (msg : String)
deriving DecidableEq

/-- The transient-transport-error classifier of `fetchWithRetry`
(github.ts lines 102-108): an error is retryable when its message contains
one of five fixed substrings. -/
def isTransientError (msg : String) : Bool :=
  strIncludes msg "fetch failed" ||
  strIncludes msg "socket hang up" ||
  strIncludes msg "ECONNRESET" ||
  strIncludes msg "ETIMEDOUT" ||
  strIncludes msg "ENOTFOUND"

/-- The retry loop of `fetchWithRetry` (github.ts lines 76-120).
`outcomes n` is what the `n`-th call of `fetch` produces; `retriesLeft`
is `maxRetries - attempt`, so `attempt < maxRetries` is `retriesLeft > 0`.
Statuses 401/403 return at once; `response.ok` (2xx) and other 4xx return
at once; 5xx retries while budget remains, else the response is returned;
a thrown transient error retries while budget remains, else is re-thrown. -/
def fetchGo (outcomes : Nat → Outcome) : Nat → Nat → FetchResult
  | attempt, retriesLeft =>
    match outcomes attempt with
    | Outcome.resp s =>
      if s = 401 ∨ s = 403 then FetchResult.success s attempt
      else if (200 ≤ s ∧ s < 300) ∨ (400 ≤ s ∧ s < 500) then FetchResult.success s attempt
      else
        match retriesLeft with
        | 0 => FetchResult.success s attempt
        | r + 1 =>
          if 500 ≤ s then fetchGo outcomes (attempt + 1) r
          else FetchResult.success s attempt
    | Outcome.err m =>
      match retriesLeft with
      | 0 => FetchResult.thrown m
      | r + 1 =>
        if isTransientError m then fetchGo outcomes (attempt + 1) r
        else FetchResult.thrown m

/-- `fetchWithRetry` (github.ts line 73): runs attempts `0..maxRetries`
against the sequence of upstream outcomes. -/
def fetchWithRetry (outcomes : Nat → Outcome) (maxRetries : Nat) : FetchResult :=
  fetchGo outcomes 0 maxRetries

/-!  ## Cache  -/

/-- `CacheEntry` (types.ts): an opaque payload plus its storage instant. -/
structure CacheEntry (α : Type) where
  data : α
  lastUpdated : Int
deriving DecidableEq

/-- The in-memory cache: string-keyed association list in insertion order
(JS objects preserve insertion order and have unique keys). -/
def CacheMap (α : Type) : Type := List (String × CacheEntry α)

/-- `CACHE_DURATION` (github.ts line 12): 14 days in milliseconds. -/
def CACHE_DURATION : Int := 1000 * 60 * 60 * 24 * 14

/-- `STATS_CACHE_DURATION` (github.ts line 13): 6 hours in milliseconds. -/
def STATS_CACHE_DURATION : Int := 1000 * 60 * 60 * 6

/-- `MAX_CACHE_ENTRIES` (github.ts line 14). -/
def MAX_CACHE_ENTRIES : Nat := 1000

/-- `MAX_CACHE_SIZE` (github.ts line 15): 50MB. -/
def MAX_CACHE_SIZE : Nat := 50 * 1024 * 1024

/-- One `delete cache[key]` statement on the JS cache object. -/
def deleteKey (cache : CacheMap α) (key : String) : CacheMap α :=
  cache.filter (fun e => !(e.1 == key))

/-- `cleanupCache` (github.ts lines 24-51), with the entry limit and size
limit as parameters (the source fixes them to `MAX_CACHE_ENTRIES` and
`MAX_CACHE_SIZE`) and the serialized-size estimate `currentSize` passed in
(the source computes it as `JSON.stringify(cache).length`).  If neither
limit is exceeded nothing happens; otherwise entries are sorted ascending
by `lastUpdated` (stable) and the `max(0, length - floor(maxEntries * 0.8))`
oldest entries are deleted from the cache, one `delete cache[key]` at a
time. -/
def cleanupCache (maxEntries currentSize maxSize : Nat) (cache : CacheMap α) : CacheMap α :=
  if cache.length ≤ maxEntries ∧ currentSize ≤ maxSize then cache
  else
    let sortedEntries := sortByAsc (fun e => e.2.lastUpdated) cache
    let targetEntries := maxEntries * 8 / 10
    let entriesToRemove := cache.length - targetEntries
    ((sortedEntries.take entriesToRemove).map Prod.fst).foldl deleteKey cache

/-- The cache write `cache[key] = { data, lastUpdated: now }` used by
`setCacheEntry` (github.ts lines 56-60) and the stats handler: an existing
key is overwritten in place, a new key is appended. -/
def cacheSet : CacheMap α → String → α → Int → CacheMap α
  | [], key, d, now => [(key, ⟨d, now⟩)]
  | e :: rest, key, d, now =>
    if e.1 = key then (key, ⟨d, now⟩) :: rest else e :: cacheSet rest key d now

/-- The lookup `cache[key]` on the JS cache object. -/
def lookupEntry (cache : CacheMap α) (key : String) : Option (CacheEntry α) :=
  match cache.find? (fun e => e.1 == key) with
  | some e => some e.2
  | none => none

/-- The cache consultation of the proxy handler (github.ts lines 150-174):
when caching is requested and a stored entry for `endpoint` is younger
than `CACHE_DURATION`, its data is served; otherwise the read is a miss. -/
def proxyCacheRead (shouldUseCache : Bool) (cache : CacheMap α) (endpoint : String)
    (now : Int) : Option α :=
  if shouldUseCache then
    match lookupEntry cache endpoint with
    | some e => if now - e.lastUpdated < CACHE_DURATION then some e.data else none
    | none => none
  else none

/-- The stats cache key `stats_${username}` (github.ts line 666). -/
def statsWriteKey (username : String) : String :=
  "stats_" ++ username

/-- The cache consultation of `handleStatsRequest` (github.ts lines
666-680): unless a forced refresh is requested, a stored entry for
`stats_${username}` younger than `STATS_CACHE_DURATION` is served. -/
def statsCacheRead (forceRefresh : Bool) (cache : CacheMap α) (username : String)
    (now : Int) : Option α :=
  if forceRefresh then none
  else
    match lookupEntry cache (statsWriteKey username) with
    | some e => if now - e.lastUpdated < STATS_CACHE_DURATION then some e.data else none
    | none => none

/-- The key under which the proxy handler may write to the cache
(github.ts lines 142-148 and 241-243): the handler rejects any `endpoint`
not starting with "/" before reaching the cache write, so a write happens
only for keys starting with "/". -/
def proxyWriteKey (endpoint : String) : Option String :=
  if strStartsWith endpoint "/" then some endpoint else none

/-!  ## Statistics aggregation (`fetchGitHubStats`)  -/

/-- The fields of a `GitHubRepo` (types.ts) used by the statistics
computation (name, language, size and pushed-at are not needed by the
claims under verification). -/
structure GitHubRepo where
  stargazers_count : Nat
  forks_count : Nat
  fork : Bool
deriving DecidableEq

/-- A `GitHubEvent` (types.ts) as the statistics computation consumes it:
its type tag and the calendar date of its `created_at` timestamp, as a day
number (the embedding of `new Date(event.created_at).toDateString()`). -/
structure GitHubEvent where
  type : String
  day : Int
deriving DecidableEq

/-- `totalRepos` (github.ts line 621): the length of the fetched repo
list. -/
def totalReposOf (repos : List GitHubRepo) : Nat :=
  repos.length

/-- `contributedTo` (github.ts line 624): the number of repos with
`fork = true`. -/
def contributedToOf (repos : List GitHubRepo) : Nat :=
  (repos.filter (fun r => r.fork)).length

/-- The `ownRepos` partition (github.ts line 463): repos that are not
forks. -/
def ownReposOf (repos : List GitHubRepo) : List GitHubRepo :=
  repos.filter (fun r => !r.fork)

/-- The accumulation loop of github.ts lines 457-474: `totalStars` and
`totalForks` summed over the own (non-fork) repos only. -/
def repoTotals (repos : List GitHubRepo) : Nat × Nat :=
  (ownReposOf repos).foldl
    (fun acc r => (acc.1 + r.stargazers_count, acc.2 + r.forks_count)) (0, 0)

/-- One step of the language aggregation (github.ts lines 510-513):
`allLanguageBytes[lang] = (allLanguageBytes[lang] || 0) + bytes`, on an
insertion-ordered association list with unique keys. -/
def addLangBytes : List (String × Nat) → String → Nat → List (String × Nat)
  | [], lang, bytes => [(lang, bytes)]
  | (l, b) :: rest, lang, bytes =>
    if l = lang then (l, b + bytes) :: rest
    else (l, b) :: addLangBytes rest lang bytes

/-- The language aggregation loop (github.ts lines 478-521): folds every
per-repo language byte map (in repo order; batching 5-at-a-time preserves
this order) into the global accumulator and the running grand total. -/
def aggregateLanguages (maps : List (List (String × Nat))) : List (String × Nat) × Nat :=
  maps.foldl
    (fun acc m =>
      m.foldl (fun acc2 p => (addLangBytes acc2.1 p.1 p.2, acc2.2 + p.2)) acc)
    ([], 0)

/-- `Math.round((bytes / total) * 100)` for naturals with `total > 0`,
as exact half-up rounding of `100 * bytes / total`. -/
def roundPct (bytes total : Nat) : Nat :=
  (200 * bytes + total) / (2 * total)

/-- The `topLanguages` computation (github.ts lines 524-532): when the
grand total is positive, map each language to its rounded percentage,
sort descending by percentage (stable), keep the first five, and drop
zero-percentage entries; otherwise the empty mapping. -/
def topLanguagesList (allBytes : List (String × Nat)) (total : Nat) : List (String × Nat) :=
  if 0 < total then
    (((sortByDesc (fun p => (p.2 : Int))
        (allBytes.map (fun p => (p.1, roundPct p.2 total)))).take 5).filter
      (fun p => 0 < p.2))
  else []

/-- The push-event contribution dates (github.ts lines 559-561): the
calendar date of every `PushEvent` in the event stream. -/
def pushDates (events : List GitHubEvent) : List Int :=
  (events.filter (fun e => e.type == "PushEvent")).map (fun e => e.day)

/-- Helper for `jsSetDedup`: keeps elements not yet seen, in order. -/
def jsSetDedupAux (seen : List Int) : List Int → List Int
  | [] => []
  | a :: l =>
    if seen.elem a then jsSetDedupAux seen l
    else a :: jsSetDedupAux (a :: seen) l

/-- `[...new Set(xs)]` on a JS array: deduplication keeping the first
occurrence of each element, in order. -/
def jsSetDedup (l : List Int) : List Int :=
  jsSetDedupAux [] l

/-- The streak walk of github.ts lines 573-599 over the descending list of
unique push dates.  State `(current, longest, temp)` mirrors
`currentStreak`, `longestStreak`, `tempStreak`.  For each date with a
successor, a day-difference of exactly 1 extends `temp`, otherwise
`longest` absorbs `temp` and `temp` resets; then, if the date is today or
within one day of now (for dates at local midnight this is
`today - d ≤ 1`), `current` is set to the just-updated `temp + 1`. -/
def streakLoop (today : Int) : List Int → Nat → Nat → Nat → Nat × Nat × Nat
  | [], current, longest, temp => (current, longest, temp)
  | d :: rest, current, longest, temp =>
    let longest2 := (match rest with
      | [] => longest
      | d2 :: _ => if d - d2 = 1 then longest else max longest temp)
    let temp2 := (match rest with
      | [] => temp
      | d2 :: _ => if d - d2 = 1 then temp + 1 else 0)
    let current2 := if d = today ∨ today - d ≤ 1 then temp2 + 1 else current
    streakLoop today rest current2 longest2 temp2

/-- The streak computation (github.ts lines 567-602): run the walk with
all counters at 0, then let `longest` absorb the final `temp`. -/
def computeStreaks (today : Int) (sortedDates : List Int) : Nat × Nat :=
  let r := streakLoop today sortedDates 0 0 0
  (r.1, max r.2.1 r.2.2)

/-- The full streak pipeline (github.ts lines 559-602): push dates,
deduplicated first-occurrence style, sorted most-recent-first, walked. -/
def pushStreaks (today : Int) (events : List GitHubEvent) : Nat × Nat :=
  computeStreaks today (sortByDesc (fun d => d) (jsSetDedup (pushDates events)))

/-!  ## Lemmas about the stable sorts  -/

theorem insertByDesc_perm (k : α → Int) (x : α) (l : List α) :
    List.Perm (insertByDesc k x l) (x :: l) := by
  induction l with
  | nil => simp [insertByDesc]
  | cons y ys ih =>
    simp only [insertByDesc]
    split
    · exact (ih.cons y).trans (List.Perm.swap x y ys)
    · exact List.Perm.refl _

theorem foldlInsertByDesc_perm (k : α → Int) (l : List α) :
    ∀ acc : List α,
      List.Perm (l.foldl (fun acc x => insertByDesc k x acc) acc) (acc ++ l) := by
  induction l with
  | nil => intro acc; simp
  | cons x xs ih =>
    intro acc
    have h1 := ih (insertByDesc k x acc)
    have h2 : List.Perm (insertByDesc k x acc ++ xs) ((x :: acc) ++ xs) :=
      (insertByDesc_perm k x acc).append_right xs
    have h3 : List.Perm ((x :: acc) ++ xs) (acc ++ x :: xs) := List.perm_middle.symm
    exact (h1.trans h2).trans h3

theorem sortByDesc_perm (k : α → Int) (l : List α) :
    List.Perm (sortByDesc k l) l := by
  simpa [sortByDesc] using foldlInsertByDesc_perm k l []

theorem insertByDesc_pairwise (k : α → Int) (x : α) {l : List α}
    (h : l.Pairwise (fun a b => k b ≤ k a)) :
    (insertByDesc k x l).Pairwise (fun a b => k b ≤ k a) := by
  induction l with
  | nil => simp [insertByDesc]
  | cons y ys ih =>
    rw [List.pairwise_cons] at h
    obtain ⟨hy, hys⟩ := h
    simp only [insertByDesc]
    split
    · rename_i hx
      rw [List.pairwise_cons]
      refine ⟨?_, ih hys⟩
      intro b hb
      rcases List.mem_cons.mp ((insertByDesc_perm k x ys).mem_iff.mp hb) with rfl | hb2
      · exact hx
      · exact hy b hb2
    · rename_i hx
      rw [List.pairwise_cons]
      refine ⟨?_, List.Pairwise.cons hy hys⟩
      intro b hb
      rcases List.mem_cons.mp hb with rfl | hb2
      · omega
      · have := hy b hb2; omega

theorem foldlInsertByDesc_pairwise (k : α → Int) (l : List α) :
    ∀ acc : List α, acc.Pairwise (fun a b => k b ≤ k a) →
      (l.foldl (fun acc x => insertByDesc k x acc) acc).Pairwise
        (fun a b => k b ≤ k a) := by
  induction l with
  | nil => intro acc h; simpa using h
  | cons x xs ih =>
    intro acc h
    exact ih (insertByDesc k x acc) (insertByDesc_pairwise k x h)

theorem sortByDesc_pairwise (k : α → Int) (l : List α) :
    (sortByDesc k l).Pairwise (fun a b => k b ≤ k a) := by
  simpa [sortByDesc] using foldlInsertByDesc_pairwise k l [] (by simp)

theorem insertByDesc_filterEq (k : α → Int) (x : α) (v : Int) {l : List α}
    (h : l.Pairwise (fun a b => k b ≤ k a)) :
    (insertByDesc k x l).filter (fun a => k a == v) =
      if k x = v then l.filter (fun a => k a == v) ++ [x]
      else l.filter (fun a => k a == v) := by
  induction l with
  | nil =>
    by_cases hv : k x = v
    · simp [insertByDesc, hv]
    · simp [insertByDesc, hv]
  | cons y ys ih =>
    rw [List.pairwise_cons] at h
    obtain ⟨hy, hys⟩ := h
    simp only [insertByDesc]
    split
    · rename_i hx
      rw [List.filter_cons, List.filter_cons, ih hys]
      by_cases hv : k x = v <;> by_cases hyv : k y = v <;> simp [hv, hyv]
    · rename_i hx
      have hyx : k y < k x := by omega
      by_cases hv : k x = v
      · have hnil : (y :: ys).filter (fun a => k a == v) = [] := by
          rw [List.filter_eq_nil_iff]
          intro a ha
          rcases List.mem_cons.mp ha with rfl | ha2
          · simp only [beq_iff_eq]; omega
          · have := hy a ha2; simp only [beq_iff_eq]; omega
        rw [List.filter_cons, hnil]
        simp [hv]
      · rw [List.filter_cons]
        simp [hv]

theorem foldlInsertByDesc_filterEq (k : α → Int) (v : Int) (l : List α) :
    ∀ acc : List α, acc.Pairwise (fun a b => k b ≤ k a) →
      (l.foldl (fun acc x => insertByDesc k x acc) acc).filter (fun a => k a == v) =
        acc.filter (fun a => k a == v) ++ l.filter (fun a => k a == v) := by
  induction l with
  | nil => intro acc _; simp
  | cons x xs ih =>
    intro acc h
    rw [List.foldl_cons, ih (insertByDesc k x acc) (insertByDesc_pairwise k x h),
      insertByDesc_filterEq k x v h, List.filter_cons]
    by_cases hv : k x = v
    · simp [hv]
    · simp [hv]

/-- Stability of the descending sort: restricted to any single key value,
the sorted list is exactly the input list (same elements, same order). -/
theorem sortByDesc_filterEq (k : α → Int) (v : Int) (l : List α) :
    (sortByDesc k l).filter (fun a => k a == v) = l.filter (fun a => k a == v) := by
  simpa [sortByDesc] using foldlInsertByDesc_filterEq k v l [] (by simp)

theorem insertByAsc_append (k : α → Int) (x : α) {l : List α}
    (h : ∀ y ∈ l, k y ≤ k x) : insertByAsc k x l = l ++ [x] := by
  induction l with
  | nil => rfl
  | cons y ys ih =>
    simp only [insertByAsc]
    rw [if_pos (h y (by simp))]
    rw [ih (fun z hz => h z (by simp [hz]))]
    rfl

theorem foldlInsertByAsc_sorted (k : α → Int) (l : List α) :
    ∀ acc : List α, (acc ++ l).Pairwise (fun a b => k a ≤ k b) →
      l.foldl (fun acc x => insertByAsc k x acc) acc = acc ++ l := by
  induction l with
  | nil => intro acc _; simp
  | cons x xs ih =>
    intro acc h
    have hax : ∀ y ∈ acc, k y ≤ k x := by
      rw [List.pairwise_append] at h
      intro y hy
      exact h.2.2 y hy x (by simp)
    rw [List.foldl_cons, insertByAsc_append k x hax, ih (acc ++ [x]) (by simpa using h)]
    simp

/-- A list already sorted ascending by `k` is left unchanged by the
stable ascending sort. -/
theorem sortByAsc_of_sorted (k : α → Int) {l : List α}
    (h : l.Pairwise (fun a b => k a ≤ k b)) : sortByAsc k l = l := by
  simpa [sortByAsc] using foldlInsertByAsc_sorted k l [] (by simpa using h)

/-!  ## Lemmas about the cache  -/

theorem lookupEntry_cacheSet_self (c : CacheMap α) (key : String) (d : α) (now : Int) :
    lookupEntry (cacheSet c key d now) key = some ⟨d, now⟩ := by
  induction c with
  | nil => simp [cacheSet, lookupEntry, List.find?]
  | cons e rest ih =>
    by_cases he : e.1 = key
    · simp [cacheSet, he, lookupEntry, List.find?]
    · have hne : (e.1 == key) = false := by simpa using he
      simp only [cacheSet, if_neg he, lookupEntry, List.find?_cons, hne]
      simpa [lookupEntry] using ih

theorem deleteKey_of_not_mem {c : CacheMap α} {key : String}
    (h : key ∉ c.map Prod.fst) : deleteKey c key = c := by
  rw [deleteKey, List.filter_eq_self]
  intro e he
  have : e.1 ≠ key := by
    intro hk
    exact h (hk ▸ List.mem_map_of_mem Prod.fst he)
  simpa using this

theorem deleteKey_head {e : String × CacheEntry α} {rest : CacheMap α}
    (h : e.1 ∉ rest.map Prod.fst) : deleteKey (e :: rest) e.1 = rest := by
  rw [deleteKey, List.filter_cons]
  simp only [beq_self_eq_true, Bool.not_true, if_false]
  exact deleteKey_of_not_mem h

theorem foldl_deleteKey_take_drop :
    ∀ (l : CacheMap α) (r : Nat), (l.map Prod.fst).Nodup →
      ((l.take r).map Prod.fst).foldl deleteKey l = l.drop r := by
  intro l
  induction l with
  | nil => intro r _; simp
  | cons e rest ih =>
    intro r h
    simp only [List.map_cons, List.nodup_cons] at h
    obtain ⟨hnotin, hnd⟩ := h
    cases r with
    | zero => simp
    | succ s =>
      simp only [List.take_succ_cons, List.map_cons, List.foldl_cons,
        List.drop_succ_cons]
      rw [deleteKey_head hnotin]
      exact ih s hnd

/-!  ## Streak evaluation lemmas  -/

theorem sortByDesc_id_eq_of_perm {l target : List Int}
    (hp : List.Perm l target) (hs : target.Pairwise (fun a b : Int => b ≤ a)) :
    sortByDesc (fun d => d) l = target := by
  haveI : IsAntisymm Int (fun a b => b ≤ a) := ⟨fun a b hab hba => le_antisymm hba hab⟩
  have h1 : List.Perm (sortByDesc (fun d => d) l) target :=
    (sortByDesc_perm _ l).trans hp
  have h2 : (sortByDesc (fun d => d) l).Pairwise (fun a b : Int => b ≤ a) := by
    simpa using sortByDesc_pairwise (fun d => d) l
  exact List.eq_of_perm_of_sorted h1 h2 hs

theorem computeStreaks_consecutive3 (t : Int) :
    computeStreaks t [t, t - 1, t - 2] = (3, 2) := by
  have h1 : t - (t - 1) = 1 := by ring
  have h2 : t - 1 - (t - 2) = 1 := by ring
  have h3 : t - (t - 2) = 2 := by ring
  have h4 : ¬(t - 2 = t) := by omega
  have h5 : ¬(t - 1 = t) := by omega
  simp [computeStreaks, streakLoop, h1, h2, h3, h4, h5]

theorem computeStreaks_gap7 (t : Int) :
    computeStreaks t [t, t - 7] = (1, 0) := by
  have h1 : t - (t - 7) = 7 := by ring
  have h5 : ¬(t - 7 = t) := by omega
  simp [computeStreaks, streakLoop, h1, h5]

/-!  ## Claim theorems  -/

/-- C1 (counterexample): with pushes exactly on today (day 0) and day-7,
the streak computation of `fetchGitHubStats` returns
`(currentStreak, longestStreak) = (1, 0)` — the claimed
`longestStreak = 1` is false: an isolated push day never increments
`tempStreak`, so `longestStreak` stays 0. -/
theorem pushStreaks_gap_longest_zero :
    pushStreaks 0 [⟨"PushEvent", 0⟩, ⟨"PushEvent", -7⟩] = (1, 0) ∧
    (pushStreaks 0 [⟨"PushEvent", 0⟩, ⟨"PushEvent", -7⟩]).2 ≠ 1 := by
  constructor
  · decide
  · decide

/-- C1 (amended): if the unique push dates are exactly
`[today, yesterday, day-2]` the walk returns `currentStreak = 3`; if they
are exactly `[today, day-7]` it returns `currentStreak = 1` and
`longestStreak = 0` (not 1: the amendment forced by the counterexample). -/
theorem pushStreaks_scenarios (t : Int) (ev1 ev2 : List GitHubEvent)
    (h1 : List.Perm (jsSetDedup (pushDates ev1)) [t, t - 1, t - 2])
    (h2 : List.Perm (jsSetDedup (pushDates ev2)) [t, t - 7]) :
    (pushStreaks t ev1).1 = 3 ∧ pushStreaks t ev2 = (1, 0) := by
  have e1 : sortByDesc (fun d => d) (jsSetDedup (pushDates ev1)) = [t, t - 1, t - 2] := by
    refine sortByDesc_id_eq_of_perm h1 ?_
    refine List.Pairwise.cons ?_ (List.Pairwise.cons ?_ ?_)
    · intro b hb
      rcases List.mem_cons.mp hb with rfl | hb2
      · omega
      · rcases List.mem_singleton.mp hb2 with rfl
        omega
    · intro b hb
      rcases List.mem_singleton.mp hb with rfl
      omega
    · exact List.pairwise_singleton _ _
  have e2 : sortByDesc (fun d => d) (jsSetDedup (pushDates ev2)) = [t, t - 7] := by
    refine sortByDesc_id_eq_of_perm h2 ?_
    refine List.Pairwise.cons ?_ (List.pairwise_singleton _ _)
    intro b hb
    rcases List.mem_singleton.mp hb with rfl
    omega
  constructor
  · rw [pushStreaks, e1, computeStreaks_consecutive3]
  · rw [pushStreaks, e2, computeStreaks_gap7]

/-- C1 witness: the amended theorem applied at today = 0 with concrete
event streams realizing the two date sets. -/
theorem pushStreaks_scenarios_witness :
    (pushStreaks 0 [⟨"PushEvent", 0⟩, ⟨"PushEvent", -1⟩, ⟨"PushEvent", -2⟩]).1 = 3 ∧
    pushStreaks 0 [⟨"PushEvent", 0⟩, ⟨"PushEvent", (0 : Int) - 7⟩] = (1, 0) := by
  have h := pushStreaks_scenarios 0
    [⟨"PushEvent", 0⟩, ⟨"PushEvent", -1⟩, ⟨"PushEvent", -2⟩]
    [⟨"PushEvent", 0⟩, ⟨"PushEvent", (0 : Int) - 7⟩]
    (by decide) (by decide)
  exact h

/-- C2: with `maxRetries = 2`, upstream statuses `[500, 500, 200]` yield
the third response (the 200, attempt index 2); statuses `[500, 500, 500]`
yield the third 500 with no fourth attempt; and a 401 or 403 on the first
attempt is returned immediately (attempt index 0, no retry). -/
theorem fetchWithRetry_status_scenarios
    (f g q : Nat → Outcome) (s : Nat)
    (hf0 : f 0 = Outcome.resp 500) (hf1 : f 1 = Outcome.resp 500)
    (hf2 : f 2 = Outcome.resp 200)
    (hg0 : g 0 = Outcome.resp 500) (hg1 : g 1 = Outcome.resp 500)
    (hg2 : g 2 = Outcome.resp 500)
    (hs : s = 401 ∨ s = 403) (hq0 : q 0 = Outcome.resp s) :
    fetchWithRetry f 2 = FetchResult.success 200 2 ∧
    fetchWithRetry g 2 = FetchResult.success 500 2 ∧
    fetchWithRetry q 2 = FetchResult.success s 0 := by
  refine ⟨?_, ?_, ?_⟩
  · simp [fetchWithRetry, fetchGo, hf0, hf1, hf2]
  · simp [fetchWithRetry, fetchGo, hg0, hg1, hg2]
  · rcases hs with rfl | rfl
    · simp [fetchWithRetry, fetchGo, hq0]
    · simp [fetchWithRetry, fetchGo, hq0]

/-- C2 witness: the three scenarios at concrete outcome sequences. -/
theorem fetchWithRetry_status_scenarios_witness :
    fetchWithRetry (fun n => if n = 2 then Outcome.resp 200 else Outcome.resp 500) 2 =
      FetchResult.success 200 2 ∧
    fetchWithRetry (fun _ => Outcome.resp 500) 2 = FetchResult.success 500 2 ∧
    fetchWithRetry (fun _ => Outcome.resp 403) 2 = FetchResult.success 403 0 :=
  fetchWithRetry_status_scenarios
    (fun n => if n = 2 then Outcome.resp 200 else Outcome.resp 500)
    (fun _ => Outcome.resp 500) (fun _ => Outcome.resp 403) 403
    rfl rfl rfl rfl rfl rfl (Or.inr rfl) rfl

/-- C8 (counterexample): a "connection refused" transport error
(`connect ECONNREFUSED 127.0.0.1:443`) thrown on the first attempt is NOT
retried, contrary to the claimed closed transient set: the classifier in
github.ts lines 102-108 matches only {fetch failed, socket hang up,
ECONNRESET, ETIMEDOUT, ENOTFOUND}, so the error propagates immediately
even though a successful 200 would have been available on the next
attempt, while a plain "socket hang up" (outside the claimed set) IS
retried. -/
theorem connRefused_not_retried :
    fetchWithRetry
      (fun n => if n = 0 then Outcome.err "connect ECONNREFUSED 127.0.0.1:443"
                else Outcome.resp 200) 2 =
      FetchResult.thrown "connect ECONNREFUSED 127.0.0.1:443" ∧
    isTransientError "connect ECONNREFUSED 127.0.0.1:443" = false ∧
    fetchWithRetry
      (fun n => if n = 0 then Outcome.err "socket hang up"
                else Outcome.resp 200) 2 =
      FetchResult.success 200 1 := by
  refine ⟨?_, ?_, ?_⟩ <;> decide

/-- C8 (amended): a thrown transport error is retried if and only if its
message matches the code's transient set {fetch failed, socket hang up,
ECONNRESET, ETIMEDOUT, ENOTFOUND} ("connection refused" is not in the
set); a non-matching transport failure propagates immediately, and after
exhausting all retries on transient failures the last transport error is
thrown. -/
theorem fetchWithRetry_transport_classification
    (f g q : Nat → Outcome) (m mg n0 n1 n2 : String)
    (hf0 : f 0 = Outcome.err m) (hm : isTransientError m = false)
    (hg0 : g 0 = Outcome.err mg) (hmg : isTransientError mg = true)
    (hg1 : g 1 = Outcome.resp 200)
    (hq0 : q 0 = Outcome.err n0) (hn0 : isTransientError n0 = true)
    (hq1 : q 1 = Outcome.err n1) (hn1 : isTransientError n1 = true)
    (hq2 : q 2 = Outcome.err n2) (hn2 : isTransientError n2 = true) :
    fetchWithRetry f 2 = FetchResult.thrown m ∧
    fetchWithRetry g 2 = FetchResult.success 200 1 ∧
    fetchWithRetry q 2 = FetchResult.thrown n2 ∧
    isTransientError "fetch failed" = true ∧
    isTransientError "socket hang up" = true ∧
    isTransientError "read ECONNRESET" = true ∧
    isTransientError "connect ETIMEDOUT 140.82.113.6:443" = true ∧
    isTransientError "getaddrinfo ENOTFOUND api.github.com" = true ∧
    isTransientError "connect ECONNREFUSED 127.0.0.1:443" = false := by
  refine ⟨?_, ?_, ?_, by decide, by decide, by decide, by decide, by decide, by decide⟩
  · simp [fetchWithRetry, fetchGo, hf0, hm]
  · simp [fetchWithRetry, fetchGo, hg0, hmg, hg1]
  · simp [fetchWithRetry, fetchGo, hq0, hn0, hq1, hn1, hq2, hn2]

/-- C8 witness: the amended classification at concrete outcome
sequences and messages. -/
theorem fetchWithRetry_transport_classification_witness :
    fetchWithRetry (fun _ => Outcome.err "connect ECONNREFUSED 127.0.0.1:443") 2 =
      FetchResult.thrown "connect ECONNREFUSED 127.0.0.1:443" ∧
    fetchWithRetry
      (fun n => if n = 0 then Outcome.err "fetch failed" else Outcome.resp 200) 2 =
      FetchResult.success 200 1 ∧
    fetchWithRetry (fun _ => Outcome.err "read ECONNRESET") 2 =
      FetchResult.thrown "read ECONNRESET" ∧
    isTransientError "fetch failed" = true ∧
    isTransientError "socket hang up" = true ∧
    isTransientError "read ECONNRESET" = true ∧
    isTransientError "connect ETIMEDOUT 140.82.113.6:443" = true ∧
    isTransientError "getaddrinfo ENOTFOUND api.github.com" = true ∧
    isTransientError "connect ECONNREFUSED 127.0.0.1:443" = false :=
  fetchWithRetry_transport_classification
    (fun _ => Outcome.err "connect ECONNREFUSED 127.0.0.1:443")
    (fun n => if n = 0 then Outcome.err "fetch failed" else Outcome.resp 200)
    (fun _ => Outcome.err "read ECONNRESET")
    "connect ECONNREFUSED 127.0.0.1:443" "fetch failed" "read ECONNRESET"
    "read ECONNRESET" "read ECONNRESET"
    rfl (by decide) rfl (by decide) rfl rfl (by decide) rfl (by decide) rfl
    (by decide)

/-- C3: with a positive grand total, every entry of `topLanguages` is the
half-up rounding of `100 * bytes[lang] / grandTotal` for that language's
aggregated bytes and is nonzero, the entries are sorted descending by
percentage, and at most 5 remain; with grand total 0 the mapping is
empty; and the concrete input `{A: 300, B: 100, C: 0}` yields
`{A: 75, B: 25}` with C absent. -/
theorem topLanguages_percentages (maps : List (List (String × Nat)))
    (hpos : 0 < (aggregateLanguages maps).2) :
    (∀ p ∈ topLanguagesList (aggregateLanguages maps).1 (aggregateLanguages maps).2,
      (∃ b, (p.1, b) ∈ (aggregateLanguages maps).1 ∧
        p.2 = roundPct b (aggregateLanguages maps).2) ∧ 0 < p.2) ∧
    (topLanguagesList (aggregateLanguages maps).1 (aggregateLanguages maps).2).Pairwise
      (fun a b => b.2 ≤ a.2) ∧
    (topLanguagesList (aggregateLanguages maps).1 (aggregateLanguages maps).2).length ≤ 5 ∧
    (∀ ab : List (String × Nat), topLanguagesList ab 0 = []) ∧
    topLanguagesList
      (aggregateLanguages [[("A", 300), ("B", 100), ("C", 0)]]).1
      (aggregateLanguages [[("A", 300), ("B", 100), ("C", 0)]]).2 =
      [("A", 75), ("B", 25)] := by
  set ab := (aggregateLanguages maps).1 with hab
  set tot := (aggregateLanguages maps).2 with htot
  have hunf : topLanguagesList ab tot =
      ((sortByDesc (fun p => (p.2 : Int))
        (ab.map (fun p => (p.1, roundPct p.2 tot)))).take 5).filter
        (fun p => 0 < p.2) := by
    rw [topLanguagesList, if_pos hpos]
  refine ⟨?_, ?_, ?_, ?_, ?_⟩
  · intro p hp
    rw [hunf] at hp
    constructor
    · have hp5 := List.mem_of_mem_filter hp
      have hps := (List.take_sublist 5 _).subset hp5
      have hpm := (sortByDesc_perm (fun p : String × Nat => (p.2 : Int)) _).mem_iff.mp hps
      obtain ⟨q, hq, hqe⟩ := List.mem_map.mp hpm
      subst hqe
      refine ⟨q.2, ?_, rfl⟩
      simpa using hq
    · simpa using List.of_mem_filter hp
  · rw [hunf]
    have hsub : List.Sublist
        (((sortByDesc (fun p => (p.2 : Int))
          (ab.map (fun p => (p.1, roundPct p.2 tot)))).take 5).filter
          (fun p => 0 < p.2))
        (sortByDesc (fun p => (p.2 : Int))
          (ab.map (fun p => (p.1, roundPct p.2 tot)))) :=
      (List.filter_sublist _).trans (List.take_sublist 5 _)
    have hpw := sortByDesc_pairwise (fun p => (p.2 : Int))
      (ab.map (fun p => (p.1, roundPct p.2 tot)))
    exact (hpw.sublist hsub).imp (fun h => by exact_mod_cast h)
  · rw [hunf]
    exact le_trans (List.length_filter_le _ _) (List.length_take_le _ _)
  · intro ab2
    simp [topLanguagesList]
  · decide

/-- C3 witness: the percentage properties at the concrete input
`{A: 300, B: 100, C: 0}` (grand total 400). -/
theorem topLanguages_percentages_witness :
    (∀ p ∈ topLanguagesList (aggregateLanguages [[("A", 300), ("B", 100), ("C", 0)]]).1
        (aggregateLanguages [[("A", 300), ("B", 100), ("C", 0)]]).2,
      (∃ b, (p.1, b) ∈ (aggregateLanguages [[("A", 300), ("B", 100), ("C", 0)]]).1 ∧
        p.2 = roundPct b (aggregateLanguages [[("A", 300), ("B", 100), ("C", 0)]]).2) ∧
      0 < p.2) ∧
    (topLanguagesList (aggregateLanguages [[("A", 300), ("B", 100), ("C", 0)]]).1
      (aggregateLanguages [[("A", 300), ("B", 100), ("C", 0)]]).2).Pairwise
      (fun a b => b.2 ≤ a.2) ∧
    (topLanguagesList (aggregateLanguages [[("A", 300), ("B", 100), ("C", 0)]]).1
      (aggregateLanguages [[("A", 300), ("B", 100), ("C", 0)]]).2).length ≤ 5 ∧
    (∀ ab : List (String × Nat), topLanguagesList ab 0 = []) ∧
    topLanguagesList
      (aggregateLanguages [[("A", 300), ("B", 100), ("C", 0)]]).1
      (aggregateLanguages [[("A", 300), ("B", 100), ("C", 0)]]).2 =
      [("A", 75), ("B", 25)] :=
  topLanguages_percentages [[("A", 300), ("B", 100), ("C", 0)]] (by decide)

/-- C6: for every aggregation input, `topLanguages` has no
zero-percentage entry, at most 5 entries, is ordered descending by
percentage, and equal-percentage entries keep the order in which their
languages were first encountered (stability of the sort): restricted to
any fixed percentage value, the output is a sublist of the percentage
list in aggregation order. -/
theorem topLanguages_invariants (maps : List (List (String × Nat))) :
    (∀ p ∈ topLanguagesList (aggregateLanguages maps).1 (aggregateLanguages maps).2,
      0 < p.2) ∧
    (topLanguagesList (aggregateLanguages maps).1 (aggregateLanguages maps).2).length ≤ 5 ∧
    (topLanguagesList (aggregateLanguages maps).1 (aggregateLanguages maps).2).Pairwise
      (fun a b => b.2 ≤ a.2) ∧
    (∀ v : Int,
      List.Sublist
        ((topLanguagesList (aggregateLanguages maps).1
            (aggregateLanguages maps).2).filter (fun p => ((p.2 : Int)) == v))
        (((aggregateLanguages maps).1.map
            (fun p => (p.1, roundPct p.2 (aggregateLanguages maps).2))).filter
          (fun p => ((p.2 : Int)) == v))) := by
  set ab := (aggregateLanguages maps).1 with hab
  set tot := (aggregateLanguages maps).2 with htot
  by_cases hpos : 0 < tot
  · have hunf : topLanguagesList ab tot =
        ((sortByDesc (fun p => (p.2 : Int))
          (ab.map (fun p => (p.1, roundPct p.2 tot)))).take 5).filter
          (fun p => 0 < p.2) := by
      rw [topLanguagesList, if_pos hpos]
    refine ⟨?_, ?_, ?_, ?_⟩
    · intro p hp
      rw [hunf] at hp
      simpa using List.of_mem_filter hp
    · rw [hunf]
      exact le_trans (List.length_filter_le _ _) (List.length_take_le _ _)
    · rw [hunf]
      have hsub : List.Sublist
          (((sortByDesc (fun p => (p.2 : Int))
            (ab.map (fun p => (p.1, roundPct p.2 tot)))).take 5).filter
            (fun p => 0 < p.2))
          (sortByDesc (fun p => (p.2 : Int))
            (ab.map (fun p => (p.1, roundPct p.2 tot)))) :=
        (List.filter_sublist _).trans (List.take_sublist 5 _)
      have hpw := sortByDesc_pairwise (fun p => (p.2 : Int))
        (ab.map (fun p => (p.1, roundPct p.2 tot)))
      exact (hpw.sublist hsub).imp (fun h => by exact_mod_cast h)
    · intro v
      rw [hunf]
      have h1 : List.Sublist
          ((((sortByDesc (fun p => (p.2 : Int))
            (ab.map (fun p => (p.1, roundPct p.2 tot)))).take 5).filter
            (fun p => 0 < p.2)).filter (fun p => ((p.2 : Int)) == v))
          (((sortByDesc (fun p => (p.2 : Int))
            (ab.map (fun p => (p.1, roundPct p.2 tot)))).take 5).filter
            (fun p => ((p.2 : Int)) == v)) :=
        List.Sublist.filter _ (List.filter_sublist _)
      have h2 : List.Sublist
          (((sortByDesc (fun p => (p.2 : Int))
            (ab.map (fun p => (p.1, roundPct p.2 tot)))).take 5).filter
            (fun p => ((p.2 : Int)) == v))
          ((sortByDesc (fun p => (p.2 : Int))
            (ab.map (fun p => (p.1, roundPct p.2 tot)))).filter
            (fun p => ((p.2 : Int)) == v)) :=
        List.Sublist.filter _ (List.take_sublist 5 _)
      have h3 := sortByDesc_filterEq (fun p => (p.2 : Int)) v
        (ab.map (fun p => (p.1, roundPct p.2 tot)))
      rw [h3] at h2
      exact h1.trans h2
  · have hz : tot = 0 := by omega
    have hempty : topLanguagesList ab tot = [] := by
      rw [topLanguagesList, if_neg hpos]
    rw [hempty]
    refine ⟨by simp, by simp, by simp, ?_⟩
    intro v
    simp

/-!  ## Fork accounting lemmas  -/

theorem foldl_starsForks (l : List GitHubRepo) :
    ∀ a b : Nat,
      l.foldl (fun acc r => (acc.1 + r.stargazers_count, acc.2 + r.forks_count)) (a, b) =
        (a + (l.map (fun r => r.stargazers_count)).sum,
         b + (l.map (fun r => r.forks_count)).sum) := by
  induction l with
  | nil => intro a b; simp
  | cons r rest ih =>
    intro a b
    rw [List.foldl_cons, ih]
    simp [Nat.add_assoc]

theorem length_own_add_fork (repos : List GitHubRepo) :
    (repos.filter (fun r => !r.fork)).length +
      (repos.filter (fun r => r.fork)).length = repos.length := by
  induction repos with
  | nil => rfl
  | cons r rest ih =>
    cases hrf : r.fork <;> simp [List.filter_cons, hrf] <;> omega

/-- C7: `totalRepos` counts all repos, `contributedTo` counts the forked
ones, and the star/fork sums range over the own (non-fork) repos only;
for 10 repos of which 3 are forks this gives 10, 3 and sums over the
other 7. -/
theorem fork_accounting (repos : List GitHubRepo)
    (h10 : repos.length = 10)
    (h3 : (repos.filter (fun r => r.fork)).length = 3) :
    totalReposOf repos = 10 ∧
    contributedToOf repos = 3 ∧
    (ownReposOf repos).length = 7 ∧
    (repoTotals repos).1 =
      ((ownReposOf repos).map (fun r => r.stargazers_count)).sum ∧
    (repoTotals repos).2 =
      ((ownReposOf repos).map (fun r => r.forks_count)).sum := by
  have hsplit := length_own_add_fork repos
  refine ⟨by rw [totalReposOf, h10], by rw [contributedToOf, h3], ?_, ?_, ?_⟩
  · rw [ownReposOf]; omega
  · rw [repoTotals, foldl_starsForks]; simp
  · rw [repoTotals, foldl_starsForks]; simp

/-- C7 witness: the theorem at a concrete list of 10 repos, 3 of them
forks. -/
theorem fork_accounting_witness :
    totalReposOf
        [⟨5, 2, false⟩, ⟨1, 0, true⟩, ⟨3, 1, false⟩, ⟨0, 0, true⟩, ⟨2, 2, false⟩,
         ⟨4, 0, false⟩, ⟨0, 1, true⟩, ⟨7, 3, false⟩, ⟨1, 1, false⟩, ⟨2, 0, false⟩] = 10 ∧
    contributedToOf
        [⟨5, 2, false⟩, ⟨1, 0, true⟩, ⟨3, 1, false⟩, ⟨0, 0, true⟩, ⟨2, 2, false⟩,
         ⟨4, 0, false⟩, ⟨0, 1, true⟩, ⟨7, 3, false⟩, ⟨1, 1, false⟩, ⟨2, 0, false⟩] = 3 ∧
    (ownReposOf
        [⟨5, 2, false⟩, ⟨1, 0, true⟩, ⟨3, 1, false⟩, ⟨0, 0, true⟩, ⟨2, 2, false⟩,
         ⟨4, 0, false⟩, ⟨0, 1, true⟩, ⟨7, 3, false⟩, ⟨1, 1, false⟩, ⟨2, 0, false⟩]).length = 7 ∧
    (repoTotals
        [⟨5, 2, false⟩, ⟨1, 0, true⟩, ⟨3, 1, false⟩, ⟨0, 0, true⟩, ⟨2, 2, false⟩,
         ⟨4, 0, false⟩, ⟨0, 1, true⟩, ⟨7, 3, false⟩, ⟨1, 1, false⟩, ⟨2, 0, false⟩]).1 =
      ((ownReposOf
        [⟨5, 2, false⟩, ⟨1, 0, true⟩, ⟨3, 1, false⟩, ⟨0, 0, true⟩, ⟨2, 2, false⟩,
         ⟨4, 0, false⟩, ⟨0, 1, true⟩, ⟨7, 3, false⟩, ⟨1, 1, false⟩, ⟨2, 0, false⟩]).map
        (fun r => r.stargazers_count)).sum ∧
    (repoTotals
        [⟨5, 2, false⟩, ⟨1, 0, true⟩, ⟨3, 1, false⟩, ⟨0, 0, true⟩, ⟨2, 2, false⟩,
         ⟨4, 0, false⟩, ⟨0, 1, true⟩, ⟨7, 3, false⟩, ⟨1, 1, false⟩, ⟨2, 0, false⟩]).2 =
      ((ownReposOf
        [⟨5, 2, false⟩, ⟨1, 0, true⟩, ⟨3, 1, false⟩, ⟨0, 0, true⟩, ⟨2, 2, false⟩,
         ⟨4, 0, false⟩, ⟨0, 1, true⟩, ⟨7, 3, false⟩, ⟨1, 1, false⟩, ⟨2, 0, false⟩]).map
        (fun r => r.forks_count)).sum :=
  fork_accounting
    [⟨5, 2, false⟩, ⟨1, 0, true⟩, ⟨3, 1, false⟩, ⟨0, 0, true⟩, ⟨2, 2, false⟩,
     ⟨4, 0, false⟩, ⟨0, 1, true⟩, ⟨7, 3, false⟩, ⟨1, 1, false⟩, ⟨2, 0, false⟩]
    (by decide) (by decide)

/-- C4: after inserting `maxEntries + k` distinct keys (`k ≥ 1`, strictly
increasing storage instants) the cleanup pass keeps exactly the
`floor(0.8 * maxEntries)` most-recently-stored entries — the suffix of
the insertion-ordered cache — so the removed entries are exactly the
oldest ones and at most `ceil(0.8 * maxEntries) = (8m + 9) / 10` entries
remain. -/
theorem cleanup_eviction {α : Type} (m k size maxSize : Nat)
    (cache : CacheMap α)
    (hk : 1 ≤ k) (hlen : cache.length = m + k)
    (hmono : cache.Pairwise (fun a b => a.2.lastUpdated < b.2.lastUpdated))
    (hkeys : (cache.map Prod.fst).Nodup) :
    cleanupCache m size maxSize cache = cache.drop (m + k - m * 8 / 10) ∧
    (cleanupCache m size maxSize cache).length = m * 8 / 10 ∧
    (cleanupCache m size maxSize cache).length ≤ (m * 8 + 9) / 10 := by
  have hcond : ¬(cache.length ≤ m ∧ size ≤ maxSize) := by
    intro hc
    omega
  have hsorted : sortByAsc (fun e => e.2.lastUpdated) cache = cache :=
    sortByAsc_of_sorted _ (hmono.imp (fun h => le_of_lt h))
  have hmain : cleanupCache m size maxSize cache = cache.drop (m + k - m * 8 / 10) := by
    rw [cleanupCache, if_neg hcond]
    simp only [hsorted]
    rw [foldl_deleteKey_take_drop cache _ hkeys, hlen]
  refine ⟨hmain, ?_, ?_⟩
  · rw [hmain, List.length_drop, hlen]
    omega
  · rw [hmain, List.length_drop, hlen]
    omega

/-- C4 witness: the theorem with `maxEntries = 5` and six insertions;
the cleanup keeps the four newest entries. -/
theorem cleanup_eviction_witness :
    cleanupCache 5 0 0
        ([("a", ⟨10, 1⟩), ("b", ⟨11, 2⟩), ("c", ⟨12, 3⟩), ("d", ⟨13, 4⟩),
          ("e", ⟨14, 5⟩), ("f", ⟨15, 6⟩)] : CacheMap Nat) =
      ([("a", ⟨10, 1⟩), ("b", ⟨11, 2⟩), ("c", ⟨12, 3⟩), ("d", ⟨13, 4⟩),
        ("e", ⟨14, 5⟩), ("f", ⟨15, 6⟩)] : CacheMap Nat).drop (5 + 1 - 5 * 8 / 10) ∧
    (cleanupCache 5 0 0
        ([("a", ⟨10, 1⟩), ("b", ⟨11, 2⟩), ("c", ⟨12, 3⟩), ("d", ⟨13, 4⟩),
          ("e", ⟨14, 5⟩), ("f", ⟨15, 6⟩)] : CacheMap Nat)).length = 5 * 8 / 10 ∧
    (cleanupCache 5 0 0
        ([("a", ⟨10, 1⟩), ("b", ⟨11, 2⟩), ("c", ⟨12, 3⟩), ("d", ⟨13, 4⟩),
          ("e", ⟨14, 5⟩), ("f", ⟨15, 6⟩)] : CacheMap Nat)).length ≤ (5 * 8 + 9) / 10 :=
  cleanup_eviction 5 1 0 0
    [("a", ⟨10, 1⟩), ("b", ⟨11, 2⟩), ("c", ⟨12, 3⟩), ("d", ⟨13, 4⟩),
     ("e", ⟨14, 5⟩), ("f", ⟨15, 6⟩)]
    (by decide) (by decide) (by decide) (by decide)

/-- C10: when cleanup is activated solely by the serialized-size limit
while the entry count is at or below `floor(0.8 * maxEntries)`, nothing
is removed: the cache (and hence its byte size) is unchanged. -/
theorem cleanup_size_only_noop {α : Type} (m size maxSize : Nat)
    (cache : CacheMap α)
    (hcount : cache.length ≤ m * 8 / 10) (hsize : maxSize < size) :
    cleanupCache m size maxSize cache = cache := by
  have hcond : ¬(cache.length ≤ m ∧ size ≤ maxSize) := by
    intro hc
    omega
  have h0 : cache.length - m * 8 / 10 = 0 := by omega
  rw [cleanupCache, if_neg hcond]
  simp [h0]

/-- C10 witness: a size-triggered cleanup over three entries with
`maxEntries = 5` removes nothing. -/
theorem cleanup_size_only_noop_witness :
    cleanupCache 5 100 10
        ([("a", ⟨10, 1⟩), ("b", ⟨11, 2⟩), ("c", ⟨12, 3⟩)] : CacheMap Nat) =
      ([("a", ⟨10, 1⟩), ("b", ⟨11, 2⟩), ("c", ⟨12, 3⟩)] : CacheMap Nat) :=
  cleanup_size_only_noop 5 100 10
    [("a", ⟨10, 1⟩), ("b", ⟨11, 2⟩), ("c", ⟨12, 3⟩)] (by decide) (by decide)

/-- C5: neither cache namespace ever serves an entry at least as old as
its TTL (14 days for raw-endpoint keys, 6 hours for stats keys): a read
right after a write within the TTL returns the stored value unchanged, a
read after the TTL has elapsed is a miss, and any stored entry whose age
has reached the TTL is never served. -/
theorem cache_ttl_invariant {α : Type} (c : CacheMap α) (k u : String) (d : α)
    (t nQ nR nS nT : Int)
    (hQ : nQ - t < CACHE_DURATION) (hR : CACHE_DURATION ≤ nR - t)
    (hS : nS - t < STATS_CACHE_DURATION) (hT : STATS_CACHE_DURATION ≤ nT - t) :
    proxyCacheRead true (cacheSet c k d t) k nQ = some d ∧
    proxyCacheRead true (cacheSet c k d t) k nR = none ∧
    statsCacheRead false (cacheSet c (statsWriteKey u) d t) u nS = some d ∧
    statsCacheRead false (cacheSet c (statsWriteKey u) d t) u nT = none ∧
    (∀ (n : Int) (e : CacheEntry α), lookupEntry c k = some e →
      CACHE_DURATION ≤ n - e.lastUpdated → proxyCacheRead true c k n = none) ∧
    (∀ (n : Int) (e : CacheEntry α), lookupEntry c (statsWriteKey u) = some e →
      STATS_CACHE_DURATION ≤ n - e.lastUpdated → statsCacheRead false c u n = none) := by
  refine ⟨?_, ?_, ?_, ?_, ?_, ?_⟩
  · simp [proxyCacheRead, lookupEntry_cacheSet_self, hQ]
  · simp [proxyCacheRead, lookupEntry_cacheSet_self,
      show ¬(nR - t < CACHE_DURATION) by omega]
  · simp [statsCacheRead, lookupEntry_cacheSet_self, hS]
  · simp [statsCacheRead, lookupEntry_cacheSet_self,
      show ¬(nT - t < STATS_CACHE_DURATION) by omega]
  · intro n e he hn
    simp [proxyCacheRead, he, show ¬(n - e.lastUpdated < CACHE_DURATION) by omega]
  · intro n e he hn
    simp [statsCacheRead, he, show ¬(n - e.lastUpdated < STATS_CACHE_DURATION) by omega]

/-- C5 witness: the TTL behaviour at a concrete key, username, value and
instants (write at 0; reads at 0 and exactly at each TTL). -/
theorem cache_ttl_invariant_witness :
    proxyCacheRead true (cacheSet ([] : CacheMap Nat) "/users/octocat" 42 0)
        "/users/octocat" 0 = some 42 ∧
    proxyCacheRead true (cacheSet ([] : CacheMap Nat) "/users/octocat" 42 0)
        "/users/octocat" CACHE_DURATION = none ∧
    statsCacheRead false
        (cacheSet ([] : CacheMap Nat) (statsWriteKey "octocat") 42 0) "octocat" 0 =
      some 42 ∧
    statsCacheRead false
        (cacheSet ([] : CacheMap Nat) (statsWriteKey "octocat") 42 0) "octocat"
        STATS_CACHE_DURATION = none ∧
    (∀ (n : Int) (e : CacheEntry Nat),
      lookupEntry ([] : CacheMap Nat) "/users/octocat" = some e →
      CACHE_DURATION ≤ n - e.lastUpdated →
      proxyCacheRead true ([] : CacheMap Nat) "/users/octocat" n = none) ∧
    (∀ (n : Int) (e : CacheEntry Nat),
      lookupEntry ([] : CacheMap Nat) (statsWriteKey "octocat") = some e →
      STATS_CACHE_DURATION ≤ n - e.lastUpdated →
      statsCacheRead false ([] : CacheMap Nat) "octocat" n = none) :=
  cache_ttl_invariant [] "/users/octocat" "octocat" 42 0 0 CACHE_DURATION 0
    STATS_CACHE_DURATION (by decide) (by decide) (by decide) (by decide)

/-!  ## Key-shape lemmas for the two cache namespaces  -/

theorem strStartsWith_append (p u : String) : strStartsWith (p ++ u) p = true := by
  obtain ⟨pd⟩ := p
  obtain ⟨ud⟩ := u
  show leadsWith pd (pd ++ ud) = true
  induction pd with
  | nil => rfl
  | cons a as ih =>
    simp only [List.cons_append, leadsWith, beq_self_eq_true, Bool.true_and]
    exact ih

theorem statsWriteKey_not_slash (u : String) :
    strStartsWith (statsWriteKey u) "/" = false := by
  obtain ⟨ud⟩ := u
  show leadsWith "/".data ("stats_".data ++ ud) = false
  rfl

/-- C9: every key the proxy handler can write starts with "/" (its
validation rejects anything else before the cache write), every key the
stats handler writes starts with "stats_", and no proxy-written key can
ever equal a stats key. -/
theorem cache_namespaces_disjoint (e u key : String)
    (h : proxyWriteKey e = some key) :
    strStartsWith key "/" = true ∧
    strStartsWith (statsWriteKey u) "stats_" = true ∧
    key ≠ statsWriteKey u := by
  rw [proxyWriteKey] at h
  split at h
  · rename_i hsw
    rcases Option.some.inj h with rfl
    refine ⟨hsw, strStartsWith_append "stats_" u, ?_⟩
    intro heq
    rw [heq, statsWriteKey_not_slash] at hsw
    exact Bool.false_ne_true hsw
  · exact absurd h (by simp)

/-- C9 witness: the disjointness at a concrete validated endpoint and
username. -/
theorem cache_namespaces_disjoint_witness :
    strStartsWith "/users/octocat" "/" = true ∧
    strStartsWith (statsWriteKey "octocat") "stats_" = true ∧
    "/users/octocat" ≠ statsWriteKey "octocat" :=
  cache_namespaces_disjoint "/users/octocat" "octocat" "/users/octocat" (by decide)

end GH
